import Mathlib

/-!
Verification of `scripts/import-presets.py`: a one-shot importer that reads an
export document of preset records and upserts them into the `preset_prompts`
table keyed by `preset_id`.

Shallow embedding:
* A JSON preset record is a structure of `Option` fields; `none` on a field
  accessed with `preset[...]` models a `KeyError`, while fields accessed with
  `preset.get(...)` pass `none` through as SQL NULL.
* The store is a list of rows plus a `hasTable` flag (`sqlite3.connect` on a
  missing file creates an empty database without the table, so the first
  `SELECT` raises).
* The per-record loop is a fold over the document; the record-level `except`
  handler itself reads `preset['name']`, so a failing record with no `name`
  re-raises, reaches the outer handler, and the script exits 1 *before*
  `conn.commit()` — the uncommitted transaction is rolled back, leaving the
  persisted store unchanged.  This is the `fatal` flag.
-/

/-- A row of the `preset_prompts` table. -/
structure Row where
  id : String
  preset_id : String
  name : String
  description : Option String
  enabled : Int
  icon : Option String
  image_path : Option String
  prompt : String
  order_index : Int
  created_at : String
  updated_at : String
deriving DecidableEq

/-- A preset record of the export document.  Fields the script reads with
`preset[...]` are required (a `none` models the `KeyError`); `description`,
`icon` and `image_path` are read with `preset.get(...)` and default to NULL. -/
structure PresetRecord where
  id : Option String
  preset_id : Option String
  name : Option String
  description : Option String
  enabled : Option Bool
  icon : Option String
  image_path : Option String
  prompt : Option String
  order_index : Option Int
  created_at : Option String
deriving DecidableEq

/-- The export document.  `presets = none` models both a missing `presets`
key and a `presets` value that is not a list (the script rejects both with
the same check); `presetsCount` and `exportedAt` are read unconditionally
with `import_data[...]` before the database is opened. -/
structure ExportDoc where
  presets : Option (List PresetRecord)
  presetsCount : Option Int
  exportedAt : Option String
deriving DecidableEq

/-- The persisted store.  `hasTable = false` models a database file that does
not exist or lacks the `preset_prompts` table: `sqlite3.connect` still
succeeds, but every statement touching the table raises. -/
structure Store where
  hasTable : Bool
  rows : List Row
deriving DecidableEq

/-- Mutable state of the import loop: the (uncommitted) rows and the three
counters.  `fatal = true` records that an exception escaped the per-record
handler (the handler read `preset['name']` of a record with no name), which
aborts the loop, skips the commit and exits 1. -/
structure LoopState where
  rows : List Row
  inserted : Nat
  updated : Nat
  skipped : Nat
  fatal : Bool
deriving DecidableEq

/-- Outcome of the whole script run: the process exit code, the persisted
store after the process ends (initial store when the single commit was never
reached), and the reported counters (inserted, updated, skipped), `none` when
the run aborted before the summary. -/
structure ImportResult where
  exitCode : Nat
  store : Store
  counters : Option (Nat × Nat × Nat)
deriving DecidableEq

/-- One record of the `try` body (lines 58–112 of the script): look up the
row by `preset_id`, coerce `enabled` to 0/1, then UPDATE every row with that
`preset_id` or INSERT a new row.  Returns `none` when any step raises
(missing required field, or the table is absent so the SELECT fails);
`some (rows, true)` for an update, `some (rows, false)` for an insert.
SQL parameters are evaluated before the statement executes, so a missing
required field leaves the rows untouched. -/
def processPreset (hasTable : Bool) (now : String) (rows : List Row)
    (p : PresetRecord) : Option (List Row × Bool) :=
  match p.preset_id with
  | none => none
  | some pid =>
    if hasTable then
      let existing := rows.find? (fun r => r.preset_id == pid)
      match p.enabled with
      | none => none
      | some en =>
        let enInt : Int := if en then 1 else 0
        match existing with
        | some _ =>
          match p.name, p.prompt, p.order_index with
          | some nm, some pr, some oi =>
            some (rows.map (fun r =>
              if r.preset_id == pid then
                { r with name := nm, description := p.description,
                         enabled := enInt, icon := p.icon,
                         image_path := p.image_path, prompt := pr,
                         order_index := oi, updated_at := now }
              else r), true)
          | _, _, _ => none
        | none =>
          match p.id, p.name, p.prompt, p.order_index, p.created_at with
          | some i, some nm, some pr, some oi, some ca =>
            some (rows ++ [⟨i, pid, nm, p.description, enInt, p.icon,
                            p.image_path, pr, oi, ca, now⟩], false)
          | _, _, _, _, _ => none
    else none

/-- One iteration of the `for preset in import_data['presets']` loop,
including the per-record `except` handler: a successful step bumps `updated`
or `inserted`; a failed step logs `preset['name']` and bumps `skipped`, but
when the record has no `name` the handler itself raises and the run turns
fatal (the remaining records are never reached, modelled by `fatal` freezing
the state). -/
def stepPreset (hasTable : Bool) (now : String) (s : LoopState)
    (p : PresetRecord) : LoopState :=
  if s.fatal then s
  else
    match processPreset hasTable now s.rows p with
    | some (rows2, true) => { s with rows := rows2, updated := s.updated + 1 }
    | some (rows2, false) => { s with rows := rows2, inserted := s.inserted + 1 }
    | none =>
      match p.name with
      | some _ => { s with skipped := s.skipped + 1 }
      | none => { s with fatal := true }

/-- The whole per-preset loop, in document order. -/
def runLoop (hasTable : Bool) (now : String) (s : LoopState)
    (ps : List PresetRecord) : LoopState :=
  ps.foldl (stepPreset hasTable now) s

/-- The script run (the outer `try` body), for a document that was already
read and parsed.  Validation of the `presets` key, then the unconditional
reads of `presetsCount` and `exportedAt` (a `KeyError` there reaches the
outer handler and exits 1), all before `sqlite3.connect`; then the loop, the
single `conn.commit()` and exit 0 — unless the loop went fatal, in which case
the commit never runs, the transaction is rolled back and the process exits
1 with the store as it was. -/
def importPresets (now : String) (doc : ExportDoc) (store : Store) :
    ImportResult :=
  match doc.presets with
  | none => ⟨1, store, none⟩
  | some ps =>
    match doc.presetsCount with
    | none => ⟨1, store, none⟩
    | some _ =>
      match doc.exportedAt with
      | none => ⟨1, store, none⟩
      | some _ =>
        let s := runLoop store.hasTable now ⟨store.rows, 0, 0, 0, false⟩ ps
        if s.fatal then ⟨1, store, none⟩
        else ⟨0, ⟨store.hasTable, s.rows⟩, some (s.inserted, s.updated, s.skipped)⟩

/-- The sublist of rows carrying a given `preset_id`, in store order. -/
def rowsWithPid (pid : String) (rows : List Row) : List Row :=
  rows.filter (fun r => r.preset_id == pid)

/-- The `preset_id` column of the store, in store order. -/
def pidsOf (rows : List Row) : List String :=
  rows.map (fun r => r.preset_id)

/-- A record with every required field present (the fields the script reads
with `preset[...]` on the insert path, which subsumes the update path). -/
def wellFormed (p : PresetRecord) : Prop :=
  p.id.isSome ∧ p.preset_id.isSome ∧ p.name.isSome ∧ p.enabled.isSome ∧
  p.prompt.isSome ∧ p.order_index.isSome ∧ p.created_at.isSome

instance (p : PresetRecord) : Decidable (wellFormed p) := by
  unfold wellFormed; infer_instance

/-- The `preset_id` of a record, defaulting (value irrelevant under
`wellFormed`). -/
def pidOf (p : PresetRecord) : String :=
  p.preset_id.getD ""

/-- The row the insert branch builds from a record: all fields from the
record, `enabled` coerced to 0/1, `updated_at` the fresh timestamp. -/
def mkInsertRow (now : String) (p : PresetRecord) : Row :=
  ⟨p.id.getD "", pidOf p, p.name.getD "", p.description,
   (if p.enabled.getD false then 1 else 0), p.icon, p.image_path,
   p.prompt.getD "", p.order_index.getD 0, p.created_at.getD "", now⟩

/-- How the update branch rewrites an existing row from a record: the eight
SET columns come from the record (with `enabled` coerced and `updated_at`
fresh), while `id` and `created_at` are kept from the row. -/
def mkUpdatedRow (now : String) (p : PresetRecord) (w : Row) : Row :=
  { w with name := p.name.getD "", description := p.description,
           enabled := (if p.enabled.getD false then 1 else 0),
           icon := p.icon, image_path := p.image_path,
           prompt := p.prompt.getD "", order_index := p.order_index.getD 0,
           updated_at := now }

/-- The eight columns the update branch writes from record `p` (timestamp
`now`) already hold in row `r`: re-running the update changes nothing. -/
def syncedRow (now : String) (p : PresetRecord) (r : Row) : Prop :=
  r.name = p.name.getD "" ∧ r.description = p.description ∧
  r.enabled = (if p.enabled.getD false then 1 else 0) ∧ r.icon = p.icon ∧
  r.image_path = p.image_path ∧ r.prompt = p.prompt.getD "" ∧
  r.order_index = p.order_index.getD 0 ∧ r.updated_at = now

/-- Record `p` is fully absorbed in the rows: some row carries its
`preset_id`, and every row that does already holds `p`'s values. -/
def synced (now : String) (p : PresetRecord) (rows : List Row) : Prop :=
  rowsWithPid (pidOf p) rows ≠ [] ∧
  ∀ r ∈ rowsWithPid (pidOf p) rows, syncedRow now p r

/-! ### Concrete sample data, used to instantiate the theorems below. -/

/-- The spec's worked example record: all required fields present. -/
def recSunset : PresetRecord :=
  ⟨some "p1", some "sunset", some "Sunset", none, some true, none, none,
   some "A sunset", some 1, some "2024-01-01T00:00:00Z"⟩

/-- A second well-formed record with a distinct `preset_id`. -/
def recDawn : PresetRecord :=
  ⟨some "p2", some "dawn", some "Dawn", some "morning", some false, none, none,
   some "A dawn", some 2, some "2024-02-01T00:00:00Z"⟩

/-- A record with a `name` but no `prompt`: its insert/update fails, the
handler logs the name, and the record is skipped. -/
def recNoPrompt : PresetRecord :=
  ⟨some "p3", some "dusk", some "Dusk", none, some true, none, none,
   none, some 3, some "2024-03-01T00:00:00Z"⟩

/-- A record with neither `prompt` nor `name`: its insert fails, and the
handler's own read of `preset['name']` raises again. -/
def recNoNameNoPrompt : PresetRecord :=
  ⟨some "p4", some "noon", none, none, some true, none, none,
   none, some 4, some "2024-04-01T00:00:00Z"⟩

/-- A valid single-record document (the spec's worked example). -/
def docSunset : ExportDoc :=
  ⟨some [recSunset], some 1, some "2024-01-01T00:00:00Z"⟩

/-- An empty store with the `preset_prompts` table present. -/
def emptyStore : Store := ⟨true, []⟩

/-- A store whose database lacks the `preset_prompts` table. -/
def noTableStore : Store := ⟨false, []⟩

/-- A pre-existing row with `preset_id = "sunset"` and old field values. -/
def rowOld : Row :=
  ⟨"old-id", "sunset", "Old name", some "old desc", 0, none, none,
   "old prompt", 9, "2023-06-01T00:00:00Z", "2023-06-15T00:00:00Z"⟩

/-- A store already holding `rowOld`. -/
def storeOld : Store := ⟨true, [rowOld]⟩

/-- A row whose `preset_id` appears in none of the sample documents. -/
def rowKeep : Row :=
  ⟨"k1", "keepme", "Keep", none, 1, none, none, "kp", 7,
   "2020-01-01T00:00:00Z", "2020-01-02T00:00:00Z"⟩

/-! ### Helper lemmas about one record step. -/

/-- With no `preset_prompts` table, every record's SELECT (or the earlier
`preset['preset_id']` read) raises: the step always fails. -/
theorem processPreset_noTable (now : String) (rows : List Row)
    (q : PresetRecord) : processPreset false now rows q = none := by
  unfold processPreset
  cases q.preset_id <;> simp

/-- Filtering by one `preset_id` ignores an update keyed by a different
`preset_id`, provided the rewrite keeps `preset_id` intact. -/
theorem rowsWithPid_map_ne (pid qpid : String) (hne : qpid ≠ pid)
    (u : Row → Row) (hu : ∀ r, (u r).preset_id = r.preset_id)
    (rows : List Row) :
    rowsWithPid pid (rows.map (fun r => if r.preset_id == qpid then u r else r))
      = rowsWithPid pid rows := by
  induction rows with
  | nil => rfl
  | cons r rest ih =>
    unfold rowsWithPid at ih ⊢
    cases hb : (r.preset_id == qpid) with
    | true =>
      have hr : r.preset_id = qpid := eq_of_beq hb
      have h2 : ¬(((u r).preset_id == pid) = true) := by
        rw [hu r, hr]; simp [hne]
      have h3 : ¬((r.preset_id == pid) = true) := by rw [hr]; simp [hne]
      simp only [List.map_cons, List.filter_cons, if_pos hb, if_neg h2,
        if_neg h3]
      exact ih
    | false =>
      have hb2 : ¬((r.preset_id == qpid) = true) := by simp [hb]
      simp only [List.map_cons, List.filter_cons, if_neg hb2, ih]

/-- Filtering by the updated `preset_id` maps the rewrite over exactly the
matching rows, provided the rewrite keeps `preset_id` intact. -/
theorem rowsWithPid_map_eq (pid : String) (u : Row → Row)
    (hu : ∀ r, (u r).preset_id = r.preset_id) (rows : List Row) :
    rowsWithPid pid (rows.map (fun r => if r.preset_id == pid then u r else r))
      = (rowsWithPid pid rows).map u := by
  induction rows with
  | nil => rfl
  | cons r rest ih =>
    unfold rowsWithPid at ih ⊢
    cases hb : (r.preset_id == pid) with
    | true =>
      have h2 : ((u r).preset_id == pid) = true := by rw [hu r]; exact hb
      simp only [List.map_cons, List.filter_cons, if_pos hb, if_pos h2, ih]
    | false =>
      have hb2 : ¬((r.preset_id == pid) = true) := by simp [hb]
      simp only [List.map_cons, List.filter_cons, if_neg hb2, ih]

/-- Let-free restatement of `processPreset`, definitionally equal. -/
theorem processPreset_eq (hasTable : Bool) (now : String) (rows : List Row)
    (p : PresetRecord) :
    processPreset hasTable now rows p =
      match p.preset_id with
      | none => none
      | some pid =>
        if hasTable then
          match p.enabled with
          | none => none
          | some en =>
            match rows.find? (fun r => r.preset_id == pid) with
            | some _ =>
              match p.name, p.prompt, p.order_index with
              | some nm, some pr, some oi =>
                some (rows.map (fun r =>
                  if r.preset_id == pid then
                    { r with name := nm, description := p.description,
                             enabled := (if en then (1 : Int) else 0),
                             icon := p.icon, image_path := p.image_path,
                             prompt := pr, order_index := oi,
                             updated_at := now }
                  else r), true)
              | _, _, _ => none
            | none =>
              match p.id, p.name, p.prompt, p.order_index, p.created_at with
              | some i, some nm, some pr, some oi, some ca =>
                some (rows ++ [⟨i, pid, nm, p.description,
                                (if en then (1 : Int) else 0), p.icon,
                                p.image_path, pr, oi, ca, now⟩], false)
              | _, _, _, _, _ => none
        else none := rfl

/-- Inversion: everything a successful record step tells us. -/
theorem processPreset_inv (h : Bool) (now : String) (rows rows2 : List Row)
    (q : PresetRecord) (b : Bool)
    (hp : processPreset h now rows q = some (rows2, b)) :
    h = true ∧ ∃ qpid en nm pr oi, q.preset_id = some qpid ∧
      q.enabled = some en ∧ q.name = some nm ∧ q.prompt = some pr ∧
      q.order_index = some oi ∧
      ((b = true ∧ (rows.find? (fun r => r.preset_id == qpid)).isSome ∧
        rows2 = rows.map (fun r =>
          if r.preset_id == qpid then
            { r with name := nm, description := q.description,
                     enabled := (if en then (1 : Int) else 0),
                     icon := q.icon, image_path := q.image_path,
                     prompt := pr, order_index := oi, updated_at := now }
          else r)) ∨
       (b = false ∧ rows.find? (fun r => r.preset_id == qpid) = none ∧
        ∃ i ca, q.id = some i ∧ q.created_at = some ca ∧
        rows2 = rows ++ [⟨i, qpid, nm, q.description,
                          (if en then (1 : Int) else 0), q.icon,
                          q.image_path, pr, oi, ca, now⟩])) := by
  rw [processPreset_eq] at hp
  split at hp
  · cases hp
  next qpid hqp =>
    split at hp
    next hh =>
      split at hp
      · cases hp
      next en hen =>
        split at hp
        next w hfind =>
          split at hp
          next nm pr oi hnm hpr hoi =>
            injection hp with hp1
            injection hp1 with hrows hb
            subst hb
            refine ⟨hh, qpid, en, nm, pr, oi, hqp, hen, hnm, hpr, hoi, ?_⟩
            exact Or.inl ⟨rfl, by rw [hfind]; rfl, hrows.symm⟩
          next hcatch => cases hp
        next hfind =>
          split at hp
          next i nm pr oi ca hid hnm hpr hoi hca =>
            injection hp with hp1
            injection hp1 with hrows hb
            subst hb
            refine ⟨hh, qpid, en, nm, pr, oi, hqp, hen, hnm, hpr, hoi, ?_⟩
            exact Or.inr ⟨rfl, hfind, i, ca, hid, hca, hrows.symm⟩
          next hcatch => cases hp
    next hh => cases hp

/-- Unfolding the loop one record at a time. -/
theorem runLoop_cons (h : Bool) (now : String) (s : LoopState)
    (p : PresetRecord) (ps : List PresetRecord) :
    runLoop h now s (p :: ps) = runLoop h now (stepPreset h now s p) ps := rfl

/-- The empty loop. -/
theorem runLoop_nil (h : Bool) (now : String) (s : LoopState) :
    runLoop h now s [] = s := rfl

/-- A successful step on a record keyed by a different `preset_id` leaves
the rows of any other `preset_id` untouched. -/
theorem processPreset_frame (h : Bool) (now : String) (rows rows2 : List Row)
    (q : PresetRecord) (b : Bool) (pid : String)
    (hq : q.preset_id ≠ some pid)
    (hp : processPreset h now rows q = some (rows2, b)) :
    rowsWithPid pid rows2 = rowsWithPid pid rows := by
  obtain ⟨-, qpid, en, nm, pr, oi, hqp, hen, hnm, hpr, hoi, hcase⟩ :=
    processPreset_inv h now rows rows2 q b hp
  have hne : qpid ≠ pid := by
    intro he; exact hq (by rw [hqp, he])
  rcases hcase with ⟨-, -, hrows⟩ | ⟨-, hfind, i, ca, hid, hca, hrows⟩
  · subst hrows
    exact rowsWithPid_map_ne pid qpid hne
      (fun r => { r with name := nm, description := q.description,
                         enabled := (if en then (1 : Int) else 0),
                         icon := q.icon, image_path := q.image_path,
                         prompt := pr, order_index := oi, updated_at := now })
      (fun r => rfl) rows
  · subst hrows
    unfold rowsWithPid
    rw [List.filter_append]
    have hone : List.filter (fun r => r.preset_id == pid)
        [(⟨i, qpid, nm, q.description, (if en then (1 : Int) else 0), q.icon,
           q.image_path, pr, oi, ca, now⟩ : Row)] = [] := by
      simp [hne]
    rw [hone, List.append_nil]

/-- One loop iteration on a record keyed by a different `preset_id` leaves
the rows of any other `preset_id` untouched (including failed and fatal
iterations, which leave the rows untouched altogether). -/
theorem stepPreset_frame (h : Bool) (now : String) (s : LoopState)
    (p : PresetRecord) (pid : String) (hq : p.preset_id ≠ some pid) :
    rowsWithPid pid (stepPreset h now s p).rows = rowsWithPid pid s.rows := by
  unfold stepPreset
  cases hf : s.fatal with
  | true => simp
  | false =>
    cases hp : processPreset h now s.rows p with
    | none =>
      cases hn : p.name with
      | some nm => simp [hp, hn]
      | none => simp [hp, hn]
    | some v =>
      obtain ⟨rows2, b⟩ := v
      have hfr := processPreset_frame h now s.rows rows2 p b pid hq hp
      cases b with
      | true => simp [hp, hfr]
      | false => simp [hp, hfr]

/-- The whole loop leaves the rows of a `preset_id` that no document record
carries untouched. -/
theorem runLoop_frame (h : Bool) (now : String) (pid : String)
    (ps : List PresetRecord) (hq : ∀ q ∈ ps, q.preset_id ≠ some pid)
    (s : LoopState) :
    rowsWithPid pid (runLoop h now s ps).rows = rowsWithPid pid s.rows := by
  induction ps generalizing s with
  | nil => rfl
  | cons p rest ih =>
    rw [runLoop_cons]
    exact (ih (fun q hqm => hq q (List.mem_cons_of_mem p hqm))
      (stepPreset h now s p)).trans
      (stepPreset_frame h now s p pid (hq p (List.mem_cons_self p rest)))

/-- A successful step preserves freedom from duplicate `preset_id`s: an
update never touches the `preset_id` column, and an insert happens only when
the lookup found no row with that `preset_id`. -/
theorem processPreset_nodup (h : Bool) (now : String) (rows rows2 : List Row)
    (q : PresetRecord) (b : Bool)
    (hp : processPreset h now rows q = some (rows2, b))
    (hnd : (pidsOf rows).Nodup) : (pidsOf rows2).Nodup := by
  obtain ⟨-, qpid, en, nm, pr, oi, hqp, hen, hnm, hpr, hoi, hcase⟩ :=
    processPreset_inv h now rows rows2 q b hp
  rcases hcase with ⟨-, -, hrows⟩ | ⟨-, hfind, i, ca, hid, hca, hrows⟩
  · subst hrows
    have hpids : pidsOf (rows.map (fun r =>
        if r.preset_id == qpid then
          { r with name := nm, description := q.description,
                   enabled := (if en then (1 : Int) else 0),
                   icon := q.icon, image_path := q.image_path,
                   prompt := pr, order_index := oi, updated_at := now }
        else r)) = pidsOf rows := by
      unfold pidsOf
      rw [List.map_map]
      apply List.map_congr_left
      intro r _
      cases hb : (r.preset_id == qpid) with
      | true => simp only [Function.comp_apply, if_pos hb]
      | false =>
        have hb2 : ¬((r.preset_id == qpid) = true) := by simp [hb]
        simp only [Function.comp_apply, if_neg hb2]
    rw [hpids]; exact hnd
  · subst hrows
    unfold pidsOf
    rw [List.map_append, List.nodup_append]
    refine ⟨hnd, List.nodup_singleton _, ?_⟩
    intro a ha hb2
    have hall := List.find?_eq_none.mp hfind
    obtain ⟨r, hr, ha2⟩ := List.mem_map.mp ha
    simp only [List.map_cons, List.map_nil, List.mem_singleton] at hb2
    apply hall r hr
    rw [← ha2] at hb2
    simp [hb2]

/-- One loop iteration preserves freedom from duplicate `preset_id`s. -/
theorem stepPreset_nodup (h : Bool) (now : String) (s : LoopState)
    (p : PresetRecord) (hnd : (pidsOf s.rows).Nodup) :
    (pidsOf (stepPreset h now s p).rows).Nodup := by
  unfold stepPreset
  cases hf : s.fatal with
  | true => simpa using hnd
  | false =>
    cases hp : processPreset h now s.rows p with
    | none =>
      cases hn : p.name with
      | some nm => simpa using hnd
      | none => simpa using hnd
    | some v =>
      obtain ⟨rows2, b⟩ := v
      have hkeep := processPreset_nodup h now s.rows rows2 p b hp hnd
      cases b with
      | true => simpa using hkeep
      | false => simpa using hkeep

/-- The whole loop preserves freedom from duplicate `preset_id`s. -/
theorem runLoop_nodup (h : Bool) (now : String) (ps : List PresetRecord)
    (s : LoopState) (hnd : (pidsOf s.rows).Nodup) :
    (pidsOf (runLoop h now s ps).rows).Nodup := by
  induction ps generalizing s with
  | nil => exact hnd
  | cons p rest ih =>
    rw [runLoop_cons]
    exact ih _ (stepPreset_nodup h now s p hnd)

/-- A record that has a `name` can never make the run fatal: even when its
step fails, the handler's log line succeeds and only `skipped` grows. -/
theorem stepPreset_fatal (h : Bool) (now : String) (s : LoopState)
    (p : PresetRecord) (hf : s.fatal = false) (hn : p.name ≠ none) :
    (stepPreset h now s p).fatal = false := by
  unfold stepPreset
  rw [hf]
  cases hp : processPreset h now s.rows p with
  | some v =>
    obtain ⟨rows2, b⟩ := v
    cases b <;> simp [hf]
  | none =>
    cases hn2 : p.name with
    | some nm => simp [hf]
    | none => exact absurd hn2 hn

/-- A non-fatal iteration on a record that has a `name` bumps exactly one of
the three counters. -/
theorem stepPreset_counts (h : Bool) (now : String) (s : LoopState)
    (p : PresetRecord) (hf : s.fatal = false) (hn : p.name ≠ none) :
    (stepPreset h now s p).inserted + (stepPreset h now s p).updated +
        (stepPreset h now s p).skipped =
      s.inserted + s.updated + s.skipped + 1 := by
  unfold stepPreset
  rw [hf]
  cases hp : processPreset h now s.rows p with
  | some v =>
    obtain ⟨rows2, b⟩ := v
    cases b <;> simp <;> omega
  | none =>
    cases hn2 : p.name with
    | some nm => simp; omega
    | none => exact absurd hn2 hn

/-- A loop over records that all have a `name` never turns fatal. -/
theorem runLoop_fatal (h : Bool) (now : String) (ps : List PresetRecord)
    (hn : ∀ q ∈ ps, q.name ≠ none) (s : LoopState) (hf : s.fatal = false) :
    (runLoop h now s ps).fatal = false := by
  induction ps generalizing s with
  | nil => exact hf
  | cons p rest ih =>
    rw [runLoop_cons]
    exact ih (fun q hq => hn q (List.mem_cons_of_mem p hq)) _
      (stepPreset_fatal h now s p hf (hn p (List.mem_cons_self p rest)))

/-- Over records that all have a `name`, every record bumps exactly one
counter: the counters sum to the number of records. -/
theorem runLoop_counts (h : Bool) (now : String) (ps : List PresetRecord)
    (hn : ∀ q ∈ ps, q.name ≠ none) (s : LoopState) (hf : s.fatal = false) :
    (runLoop h now s ps).inserted + (runLoop h now s ps).updated +
        (runLoop h now s ps).skipped =
      s.inserted + s.updated + s.skipped + ps.length := by
  induction ps generalizing s with
  | nil => simp [runLoop_nil]
  | cons p rest ih =>
    have hstep := stepPreset_counts h now s p hf (hn p (List.mem_cons_self p rest))
    have hfat := stepPreset_fatal h now s p hf (hn p (List.mem_cons_self p rest))
    have hrest := ih (fun q hq => hn q (List.mem_cons_of_mem p hq))
      (stepPreset h now s p) hfat
    rw [runLoop_cons]
    simp only [List.length_cons]
    omega

/-- Forward computation: a record whose `preset_id` is already present takes
the update branch and rewrites exactly the matching rows. -/
theorem processPreset_update (now : String) (rows : List Row)
    (q : PresetRecord) (qpid : String) (en : Bool) (nm pr : String) (oi : Int)
    (hqp : q.preset_id = some qpid) (hen : q.enabled = some en)
    (hnm : q.name = some nm) (hpr : q.prompt = some pr)
    (hoi : q.order_index = some oi)
    (hfind : (rows.find? (fun r => r.preset_id == qpid)).isSome) :
    processPreset true now rows q =
      some (rows.map (fun r =>
        if r.preset_id == qpid then mkUpdatedRow now q r else r), true) := by
  obtain ⟨w, hw⟩ := Option.isSome_iff_exists.mp hfind
  simp [processPreset_eq, hqp, hen, hnm, hpr, hoi, hw, mkUpdatedRow]

/-- Forward computation: a record whose `preset_id` is absent takes the
insert branch and appends `mkInsertRow`. -/
theorem processPreset_insert (now : String) (rows : List Row)
    (q : PresetRecord) (qpid : String)
    (hqp : q.preset_id = some qpid) (hwf : wellFormed q)
    (hfind : rows.find? (fun r => r.preset_id == qpid) = none) :
    processPreset true now rows q =
      some (rows ++ [mkInsertRow now q], false) := by
  obtain ⟨hid, -, hnm, hen, hpr, hoi, hca⟩ := hwf
  obtain ⟨i, hi⟩ := Option.isSome_iff_exists.mp hid
  obtain ⟨nm, hnm2⟩ := Option.isSome_iff_exists.mp hnm
  obtain ⟨en, hen2⟩ := Option.isSome_iff_exists.mp hen
  obtain ⟨pr, hpr2⟩ := Option.isSome_iff_exists.mp hpr
  obtain ⟨oi, hoi2⟩ := Option.isSome_iff_exists.mp hoi
  obtain ⟨ca, hca2⟩ := Option.isSome_iff_exists.mp hca
  simp [processPreset_eq, hqp, hi, hnm2, hen2, hpr2, hoi2, hca2, hfind,
    mkInsertRow, pidOf]

/-- Forward computation: a successful update step. -/
theorem stepPreset_update (h : Bool) (now : String) (s : LoopState)
    (p : PresetRecord) (rows2 : List Row) (hf : s.fatal = false)
    (hp : processPreset h now s.rows p = some (rows2, true)) :
    stepPreset h now s p = { s with rows := rows2, updated := s.updated + 1 } := by
  unfold stepPreset
  rw [hf, hp]
  rfl

/-- Forward computation: a successful insert step. -/
theorem stepPreset_insert (h : Bool) (now : String) (s : LoopState)
    (p : PresetRecord) (rows2 : List Row) (hf : s.fatal = false)
    (hp : processPreset h now s.rows p = some (rows2, false)) :
    stepPreset h now s p = { s with rows := rows2, inserted := s.inserted + 1 } := by
  unfold stepPreset
  rw [hf, hp]
  rfl

/-- Forward computation: a failed step on a record that has a `name` only
bumps `skipped` and moves on. -/
theorem stepPreset_skip (h : Bool) (now : String) (s : LoopState)
    (p : PresetRecord) (nm : String) (hf : s.fatal = false)
    (hp : processPreset h now s.rows p = none) (hn : p.name = some nm) :
    stepPreset h now s p = { s with skipped := s.skipped + 1 } := by
  unfold stepPreset
  rw [hf, hp, hn]
  rfl

/-- Forward computation: a failed step on a record with no `name` makes the
run fatal. -/
theorem stepPreset_gofatal (h : Bool) (now : String) (s : LoopState)
    (p : PresetRecord) (hf : s.fatal = false)
    (hp : processPreset h now s.rows p = none) (hn : p.name = none) :
    stepPreset h now s p = { s with fatal := true } := by
  unfold stepPreset
  rw [hf, hp, hn]
  rfl

/-- A non-fatal state is its own literal expansion. -/
theorem LoopState_eta (s : LoopState) (hf : s.fatal = false) :
    s = ⟨s.rows, s.inserted, s.updated, s.skipped, false⟩ := by
  cases s with
  | mk rows i u k f => rw [show f = false from hf]

/-- A freshly inserted row already holds the record's values. -/
theorem syncedRow_mkInsertRow (now : String) (p : PresetRecord) :
    syncedRow now p (mkInsertRow now p) :=
  ⟨rfl, rfl, rfl, rfl, rfl, rfl, rfl, rfl⟩

/-- A freshly updated row holds the record's values. -/
theorem syncedRow_mkUpdatedRow (now : String) (p : PresetRecord) (r : Row) :
    syncedRow now p (mkUpdatedRow now p r) :=
  ⟨rfl, rfl, rfl, rfl, rfl, rfl, rfl, rfl⟩

/-- Updating a row that already holds the record's values is a no-op. -/
theorem mkUpdatedRow_self (now : String) (p : PresetRecord) (r : Row)
    (hs : syncedRow now p r) : mkUpdatedRow now p r = r := by
  obtain ⟨h1, h2, h3, h4, h5, h6, h7, h8⟩ := hs
  cases r with
  | mk a b c d e f g hh i j k =>
    simp only [mkUpdatedRow] at *
    simp_all

/-- A valid document whose loop stays non-fatal: the run commits, exits 0
and reports the loop's rows and counters. -/
theorem importPresets_ok (now : String) (doc : ExportDoc) (store : Store)
    (ps : List PresetRecord) (h1 : doc.presets = some ps)
    (h2 : doc.presetsCount.isSome) (h3 : doc.exportedAt.isSome)
    (hnf : (runLoop store.hasTable now ⟨store.rows, 0, 0, 0, false⟩ ps).fatal
      = false) :
    importPresets now doc store =
      ⟨0, ⟨store.hasTable,
           (runLoop store.hasTable now ⟨store.rows, 0, 0, 0, false⟩ ps).rows⟩,
       some ((runLoop store.hasTable now ⟨store.rows, 0, 0, 0, false⟩ ps).inserted,
             (runLoop store.hasTable now ⟨store.rows, 0, 0, 0, false⟩ ps).updated,
             (runLoop store.hasTable now ⟨store.rows, 0, 0, 0, false⟩ ps).skipped)⟩ := by
  obtain ⟨c, hc⟩ := Option.isSome_iff_exists.mp h2
  obtain ⟨e, he⟩ := Option.isSome_iff_exists.mp h3
  unfold importPresets
  rw [h1, hc, he]
  simp [hnf]

/-- A valid document whose loop turns fatal: the commit is never reached,
the transaction is rolled back, the process exits 1. -/
theorem importPresets_fatalRun (now : String) (doc : ExportDoc) (store : Store)
    (ps : List PresetRecord) (h1 : doc.presets = some ps)
    (h2 : doc.presetsCount.isSome) (h3 : doc.exportedAt.isSome)
    (hfat : (runLoop store.hasTable now ⟨store.rows, 0, 0, 0, false⟩ ps).fatal
      = true) :
    importPresets now doc store = ⟨1, store, none⟩ := by
  obtain ⟨c, hc⟩ := Option.isSome_iff_exists.mp h2
  obtain ⟨e, he⟩ := Option.isSome_iff_exists.mp h3
  unfold importPresets
  rw [h1, hc, he]
  simp [hfat]

/-- The loop over well-formed records with pairwise distinct `preset_id`s,
none of which is present in the starting rows: every record is inserted, in
document order. -/
theorem runLoop_insert_all (now : String) (ps : List PresetRecord) :
    ∀ s : LoopState, s.fatal = false →
    (∀ p ∈ ps, wellFormed p) →
    (ps.map pidOf).Nodup →
    (∀ p ∈ ps, ∀ r ∈ s.rows, r.preset_id ≠ pidOf p) →
    runLoop true now s ps =
      ⟨s.rows ++ ps.map (mkInsertRow now), s.inserted + ps.length, s.updated,
       s.skipped, false⟩ := by
  induction ps with
  | nil =>
    intro s hf _ _ _
    cases s with
    | mk rows i u k f =>
      simp only at hf
      subst hf
      rw [runLoop_nil]
      simp
  | cons p rest ih =>
    intro s hf hwf hnd hfresh
    have hwp := hwf p (List.mem_cons_self p rest)
    obtain ⟨-, hpid, -, -, -, -, -⟩ := hwp
    obtain ⟨qpid, hqp⟩ := Option.isSome_iff_exists.mp hpid
    have hqpid : pidOf p = qpid := by simp [pidOf, hqp]
    have hfind : s.rows.find? (fun r => r.preset_id == qpid) = none := by
      rw [List.find?_eq_none]
      intro r hr
      have := hfresh p (List.mem_cons_self p rest) r hr
      rw [hqpid] at this
      simp [this]
    have hproc := processPreset_insert now s.rows p qpid hqp
      (hwf p (List.mem_cons_self p rest)) hfind
    have hstep := stepPreset_insert true now s p (s.rows ++ [mkInsertRow now p])
      hf hproc
    rw [runLoop_cons, hstep]
    have hnd2 : (rest.map pidOf).Nodup := (List.nodup_cons.mp hnd).2
    have hnotin : pidOf p ∉ rest.map pidOf := (List.nodup_cons.mp hnd).1
    have hfresh2 : ∀ q ∈ rest,
        ∀ r ∈ ({ s with rows := s.rows ++ [mkInsertRow now p],
                        inserted := s.inserted + 1 } : LoopState).rows,
        r.preset_id ≠ pidOf q := by
      intro q hq r hr
      simp only [List.mem_append, List.mem_singleton] at hr
      rcases hr with hr | hr
      · exact hfresh q (List.mem_cons_of_mem p hq) r hr
      · subst hr
        show pidOf p ≠ pidOf q
        intro he
        exact hnotin (he ▸ List.mem_map_of_mem pidOf hq)
    have := ih { s with rows := s.rows ++ [mkInsertRow now p],
                        inserted := s.inserted + 1 } hf
      (fun q hq => hwf q (List.mem_cons_of_mem p hq)) hnd2 hfresh2
    rw [this]
    have harr : (s.rows ++ [mkInsertRow now p]) ++ rest.map (mkInsertRow now)
        = s.rows ++ mkInsertRow now p :: rest.map (mkInsertRow now) := by
      rw [List.append_assoc]
      rfl
    have hnat : s.inserted + 1 + rest.length = s.inserted + (rest.length + 1) := by
      omega
    simp only [List.map_cons, List.length_cons, harr, hnat]

/-- `synced` only looks at the rows carrying the record's `preset_id`. -/
theorem synced_congr (now : String) (p : PresetRecord) (rows rows2 : List Row)
    (h : rowsWithPid (pidOf p) rows2 = rowsWithPid (pidOf p) rows)
    (hs : synced now p rows) : synced now p rows2 := by
  unfold synced at *
  rw [h]
  exact hs

/-- The loop over records not keyed by `p`'s `preset_id` preserves
`synced`. -/
theorem runLoop_synced_frame (h : Bool) (now : String)
    (ps : List PresetRecord) (p : PresetRecord)
    (hq : ∀ q ∈ ps, q.preset_id ≠ some (pidOf p)) (s : LoopState)
    (hs : synced now p s.rows) : synced now p (runLoop h now s ps).rows :=
  synced_congr now p s.rows _ (runLoop_frame h now (pidOf p) ps hq s) hs

/-- Processing a well-formed record from a non-fatal state leaves its values
absorbed in the rows, whichever branch was taken. -/
theorem stepPreset_synced_self (now : String) (s : LoopState)
    (p : PresetRecord) (hf : s.fatal = false) (hwf : wellFormed p) :
    synced now p (stepPreset true now s p).rows := by
  obtain ⟨hid, hpid, hnm, hen, hpr, hoi, hca⟩ := hwf
  obtain ⟨qpid, hqp⟩ := Option.isSome_iff_exists.mp hpid
  have hqpid : pidOf p = qpid := by simp [pidOf, hqp]
  obtain ⟨nm, hnm2⟩ := Option.isSome_iff_exists.mp hnm
  obtain ⟨en, hen2⟩ := Option.isSome_iff_exists.mp hen
  obtain ⟨pr, hpr2⟩ := Option.isSome_iff_exists.mp hpr
  obtain ⟨oi, hoi2⟩ := Option.isSome_iff_exists.mp hoi
  cases hfind : s.rows.find? (fun r => r.preset_id == qpid) with
  | some w =>
    have hproc := processPreset_update now s.rows p qpid en nm pr oi hqp hen2
      hnm2 hpr2 hoi2 (by rw [hfind]; rfl)
    rw [stepPreset_update true now s p _ hf hproc]
    unfold synced
    rw [hqpid]
    show rowsWithPid qpid (s.rows.map (fun r =>
      if r.preset_id == qpid then mkUpdatedRow now p r else r)) ≠ [] ∧ _
    rw [rowsWithPid_map_eq qpid (mkUpdatedRow now p) (fun r => rfl) s.rows]
    have hwmem : w ∈ rowsWithPid qpid s.rows := by
      unfold rowsWithPid
      exact List.mem_filter.mpr
        ⟨List.mem_of_find?_eq_some hfind,
         List.find?_some (p := fun (r : Row) => r.preset_id == qpid) hfind⟩
    constructor
    · intro hemp
      rw [List.map_eq_nil_iff] at hemp
      rw [hemp] at hwmem
      exact List.not_mem_nil w hwmem
    · intro r hr
      obtain ⟨r0, hr0, hr0eq⟩ := List.mem_map.mp hr
      rw [← hr0eq]
      exact syncedRow_mkUpdatedRow now p r0
  | none =>
    have hproc := processPreset_insert now s.rows p qpid hqp
      ⟨hid, hpid, hnm, hen, hpr, hoi, hca⟩ hfind
    rw [stepPreset_insert true now s p _ hf hproc]
    unfold synced
    rw [hqpid]
    unfold rowsWithPid
    show List.filter (fun r => r.preset_id == qpid)
      (s.rows ++ [mkInsertRow now p]) ≠ [] ∧ _
    rw [List.filter_append]
    have hmk : ((mkInsertRow now p).preset_id == qpid) = true := by
      simp [mkInsertRow, pidOf, hqp]
    have hsing : List.filter (fun r => r.preset_id == qpid)
        [mkInsertRow now p] = [mkInsertRow now p] := by
      simp [hmk]
    have hnilf : List.filter (fun r => r.preset_id == qpid) s.rows = [] := by
      rw [List.filter_eq_nil_iff]
      intro r hr
      exact List.find?_eq_none.mp hfind r hr
    rw [hsing, hnilf]
    constructor
    · simp
    · intro r hr
      simp only [List.nil_append, List.mem_singleton] at hr
      subst hr
      exact syncedRow_mkInsertRow now p

/-- After a loop over well-formed records with pairwise distinct
`preset_id`s, every record is absorbed in the resulting rows. -/
theorem runLoop_synced_all (now : String) (ps : List PresetRecord) :
    ∀ s : LoopState, s.fatal = false → (∀ p ∈ ps, wellFormed p) →
    (ps.map pidOf).Nodup →
    ∀ p ∈ ps, synced now p (runLoop true now s ps).rows := by
  induction ps with
  | nil =>
    intro s _ _ _ p hp
    exact absurd hp (List.not_mem_nil p)
  | cons q rest ih =>
    intro s hf hwf hnd p hp
    have hqname : q.name ≠ none := by
      obtain ⟨-, -, hq3, -, -, -, -⟩ := hwf q (List.mem_cons_self q rest)
      intro he
      rw [he] at hq3
      simp at hq3
    have hfq : (stepPreset true now s q).fatal = false :=
      stepPreset_fatal true now s q hf hqname
    rw [runLoop_cons]
    rcases List.mem_cons.mp hp with rfl | hp2
    · refine runLoop_synced_frame true now rest p ?_ (stepPreset true now s p)
        (stepPreset_synced_self now s p hf (hwf p (List.mem_cons_self p rest)))
      intro q2 hq2 he
      have hnotin : pidOf p ∉ rest.map pidOf := (List.nodup_cons.mp hnd).1
      apply hnotin
      have hpe : pidOf q2 = pidOf p := by simp [pidOf, he]
      exact hpe ▸ List.mem_map_of_mem pidOf hq2
    · exact ih (stepPreset true now s q) hfq
        (fun r hr => hwf r (List.mem_cons_of_mem q hr))
        (List.nodup_cons.mp hnd).2 p hp2

/-- Re-running the loop over records that are all absorbed already: every
record takes the update branch, writes back the values the rows already
hold, and the rows do not change; only `updated` grows. -/
theorem runLoop_noop (now : String) (ps : List PresetRecord) :
    ∀ s : LoopState, s.fatal = false → (∀ p ∈ ps, wellFormed p) →
    (∀ p ∈ ps, synced now p s.rows) →
    runLoop true now s ps =
      ⟨s.rows, s.inserted, s.updated + ps.length, s.skipped, false⟩ := by
  induction ps with
  | nil =>
    intro s hf _ _
    cases s with
    | mk rows i u k f =>
      simp only at hf
      subst hf
      rw [runLoop_nil]
      simp
  | cons p rest ih =>
    intro s hf hwf hsy
    have hsp := hsy p (List.mem_cons_self p rest)
    obtain ⟨hid, hpid, hnm, hen, hpr, hoi, hca⟩ :=
      hwf p (List.mem_cons_self p rest)
    obtain ⟨qpid, hqp⟩ := Option.isSome_iff_exists.mp hpid
    have hqpid : pidOf p = qpid := by simp [pidOf, hqp]
    obtain ⟨nm, hnm2⟩ := Option.isSome_iff_exists.mp hnm
    obtain ⟨en, hen2⟩ := Option.isSome_iff_exists.mp hen
    obtain ⟨pr, hpr2⟩ := Option.isSome_iff_exists.mp hpr
    obtain ⟨oi, hoi2⟩ := Option.isSome_iff_exists.mp hoi
    obtain ⟨hne, hall⟩ := hsp
    rw [hqpid] at hne hall
    have hfind : (s.rows.find? (fun r => r.preset_id == qpid)).isSome := by
      rw [List.find?_isSome]
      obtain ⟨w, hw⟩ := List.exists_mem_of_ne_nil _ hne
      obtain ⟨hwm, hwp⟩ := List.mem_filter.mp hw
      exact ⟨w, hwm, hwp⟩
    have hproc := processPreset_update now s.rows p qpid en nm pr oi hqp hen2
      hnm2 hpr2 hoi2 hfind
    have hmapid : s.rows.map (fun r =>
        if r.preset_id == qpid then mkUpdatedRow now p r else r) = s.rows := by
      have hpt : ∀ r ∈ s.rows,
          (if r.preset_id == qpid then mkUpdatedRow now p r else r) = id r := by
        intro r hr
        cases hb : (r.preset_id == qpid) with
        | true =>
          have hid2 := mkUpdatedRow_self now p r
            (hall r (List.mem_filter.mpr ⟨hr, hb⟩))
          simp [hid2]
        | false => simp
      rw [List.map_congr_left hpt, List.map_id]
    have hproc2 : processPreset true now s.rows p = some (s.rows, true) := by
      rw [hproc, hmapid]
    rw [runLoop_cons, stepPreset_update true now s p s.rows hf hproc2]
    have hrec := ih { s with rows := s.rows, updated := s.updated + 1 } hf
      (fun r hr => hwf r (List.mem_cons_of_mem p hr))
      (fun r hr => hsy r (List.mem_cons_of_mem p hr))
    rw [hrec]
    have hnat : s.updated + 1 + rest.length = s.updated + (rest.length + 1) := by
      omega
    simp only [List.length_cons, hnat]

/-- The loop splits over list concatenation. -/
theorem runLoop_append (h : Bool) (now : String) (s : LoopState)
    (l1 l2 : List PresetRecord) :
    runLoop h now s (l1 ++ l2) = runLoop h now (runLoop h now s l1) l2 := by
  unfold runLoop
  rw [List.foldl_append]

/-- A document without a `presets` list is rejected with exit 1 before the
store is opened. -/
theorem importPresets_noPresets (now : String) (doc : ExportDoc)
    (store : Store) (h : doc.presets = none) :
    importPresets now doc store = ⟨1, store, none⟩ := by
  unfold importPresets
  rw [h]

/-- A document without `presetsCount` raises before the store is opened. -/
theorem importPresets_noCount (now : String) (doc : ExportDoc) (store : Store)
    (ps : List PresetRecord) (h1 : doc.presets = some ps)
    (h2 : doc.presetsCount = none) :
    importPresets now doc store = ⟨1, store, none⟩ := by
  unfold importPresets
  rw [h1, h2]

/-- A document without `exportedAt` raises before the store is opened. -/
theorem importPresets_noExported (now : String) (doc : ExportDoc)
    (store : Store) (ps : List PresetRecord) (c : Int)
    (h1 : doc.presets = some ps) (h2 : doc.presetsCount = some c)
    (h3 : doc.exportedAt = none) :
    importPresets now doc store = ⟨1, store, none⟩ := by
  unfold importPresets
  rw [h1, h2, h3]

/-- With no `preset_prompts` table, every record fails at its first store
statement; when every record has a `name`, each one is logged and counted as
skipped and the loop completes. -/
theorem runLoop_noTable (now : String) (ps : List PresetRecord) :
    ∀ s : LoopState, s.fatal = false → (∀ q ∈ ps, q.name ≠ none) →
    runLoop false now s ps =
      ⟨s.rows, s.inserted, s.updated, s.skipped + ps.length, false⟩ := by
  induction ps with
  | nil =>
    intro s hf _
    cases s with
    | mk rows i u k f =>
      simp only at hf
      subst hf
      rw [runLoop_nil]
      simp
  | cons p rest ih =>
    intro s hf hn
    have hnp := hn p (List.mem_cons_self p rest)
    obtain ⟨nm, hnm⟩ : ∃ nm, p.name = some nm := by
      cases hx : p.name with
      | none => exact absurd hx hnp
      | some nm => exact ⟨nm, rfl⟩
    rw [runLoop_cons,
      stepPreset_skip false now s p nm hf (processPreset_noTable now s.rows p) hnm]
    rw [ih { s with skipped := s.skipped + 1 } hf
      (fun q hq => hn q (List.mem_cons_of_mem p hq))]
    have hnat : s.skipped + 1 + rest.length = s.skipped + (rest.length + 1) := by
      omega
    simp only [List.length_cons, hnat]

/-! ### The claims. -/

/-- C1: for a valid document of well-formed records (all required fields
present, distinct `preset_id`s per the data model) none of whose
`preset_id`s matches a row already in the store, the run exits 0 with
counters `(N, 0, 0)` and appends exactly the N new rows in document order;
each new row stores `enabled = 1` when the record had `enabled = true`, and
carries the freshly generated `updated_at`. -/
theorem c1_fresh_insert_run (now : String) (doc : ExportDoc) (store : Store)
    (ps : List PresetRecord)
    (ht : store.hasTable = true)
    (h1 : doc.presets = some ps) (h2 : doc.presetsCount.isSome)
    (h3 : doc.exportedAt.isSome)
    (hwf : ∀ p ∈ ps, wellFormed p)
    (hnd : (ps.map pidOf).Nodup)
    (hfresh : ∀ p ∈ ps, ∀ r ∈ store.rows, r.preset_id ≠ pidOf p) :
    (importPresets now doc store).exitCode = 0 ∧
    (importPresets now doc store).counters = some (ps.length, 0, 0) ∧
    (importPresets now doc store).store.rows
      = store.rows ++ ps.map (mkInsertRow now) ∧
    ∀ p ∈ ps, p.enabled = some true →
      (mkInsertRow now p).enabled = 1 ∧ (mkInsertRow now p).updated_at = now := by
  have hloop := runLoop_insert_all now ps ⟨store.rows, 0, 0, 0, false⟩ rfl hwf
    hnd hfresh
  have hnf : (runLoop store.hasTable now ⟨store.rows, 0, 0, 0, false⟩ ps).fatal
      = false := by
    rw [ht, hloop]
  rw [importPresets_ok now doc store ps h1 h2 h3 hnf, ht, hloop]
  refine ⟨rfl, ?_, rfl, ?_⟩
  · simp
  · intro p hp hen
    exact ⟨by simp [mkInsertRow, hen], rfl⟩

/-- C1 witness: the spec's worked example against an empty store. -/
theorem c1_fresh_insert_run_witness :
    (importPresets "2025-06-01T00:00:00Z" docSunset emptyStore).exitCode = 0 ∧
    (importPresets "2025-06-01T00:00:00Z" docSunset emptyStore).counters
      = some (1, 0, 0) := by
  obtain ⟨ha, hb, -, -⟩ := c1_fresh_insert_run "2025-06-01T00:00:00Z" docSunset
    emptyStore [recSunset] rfl rfl rfl rfl (by decide) (by decide) (by decide)
  exact ⟨ha, hb⟩

/-- C2: a well-formed record whose `preset_id` matches exactly one existing
row, and which is the only record with that `preset_id` in a document whose
records all have names (so the run commits), rewrites that row's eight SET
columns to the document's values — `enabled` coerced to 0/1, `updated_at`
the fresh timestamp — while `id` and `created_at` keep the row's prior
values. -/
theorem c2_update_matching_row (now : String) (doc : ExportDoc) (store : Store)
    (pre post : List PresetRecord) (p : PresetRecord) (pid : String) (w : Row)
    (ht : store.hasTable = true)
    (h1 : doc.presets = some (pre ++ p :: post))
    (h2 : doc.presetsCount.isSome) (h3 : doc.exportedAt.isSome)
    (hnames : ∀ q ∈ pre ++ p :: post, q.name ≠ none)
    (hqp : p.preset_id = some pid) (hen : p.enabled.isSome)
    (hpr : p.prompt.isSome) (hoi : p.order_index.isSome)
    (hpre : ∀ q ∈ pre, q.preset_id ≠ some pid)
    (hpost : ∀ q ∈ post, q.preset_id ≠ some pid)
    (hw : rowsWithPid pid store.rows = [w]) :
    rowsWithPid pid (importPresets now doc store).store.rows
      = [mkUpdatedRow now p w] ∧
    (mkUpdatedRow now p w).id = w.id ∧
    (mkUpdatedRow now p w).created_at = w.created_at ∧
    (mkUpdatedRow now p w).name = p.name.getD "" ∧
    (mkUpdatedRow now p w).description = p.description ∧
    (mkUpdatedRow now p w).enabled = (if p.enabled.getD false then 1 else 0) ∧
    (mkUpdatedRow now p w).icon = p.icon ∧
    (mkUpdatedRow now p w).image_path = p.image_path ∧
    (mkUpdatedRow now p w).prompt = p.prompt.getD "" ∧
    (mkUpdatedRow now p w).order_index = p.order_index.getD 0 ∧
    (mkUpdatedRow now p w).updated_at = now := by
  refine ⟨?_, rfl, rfl, rfl, rfl, rfl, rfl, rfl, rfl, rfl, rfl⟩
  have hnf : (runLoop store.hasTable now ⟨store.rows, 0, 0, 0, false⟩
      (pre ++ p :: post)).fatal = false :=
    runLoop_fatal store.hasTable now (pre ++ p :: post) hnames _ rfl
  rw [importPresets_ok now doc store (pre ++ p :: post) h1 h2 h3 hnf, ht,
    runLoop_append]
  have hf1 : (runLoop true now ⟨store.rows, 0, 0, 0, false⟩ pre).fatal
      = false :=
    runLoop_fatal true now pre
      (fun q hq => hnames q (List.mem_append_left _ hq)) _ rfl
  have hfr1 : rowsWithPid pid
      (runLoop true now ⟨store.rows, 0, 0, 0, false⟩ pre).rows = [w] := by
    rw [runLoop_frame true now pid pre hpre _]
    exact hw
  have hnmS : p.name.isSome := Option.ne_none_iff_isSome.mp
    (hnames p (List.mem_append_right _ (List.mem_cons_self p post)))
  obtain ⟨nm, hnm⟩ := Option.isSome_iff_exists.mp hnmS
  obtain ⟨en, hen2⟩ := Option.isSome_iff_exists.mp hen
  obtain ⟨pr2, hpr2⟩ := Option.isSome_iff_exists.mp hpr
  obtain ⟨oi, hoi2⟩ := Option.isSome_iff_exists.mp hoi
  have hfind : ((runLoop true now ⟨store.rows, 0, 0, 0, false⟩ pre).rows.find?
      (fun r => r.preset_id == pid)).isSome := by
    rw [List.find?_isSome]
    have hwmem : w ∈ rowsWithPid pid
        (runLoop true now ⟨store.rows, 0, 0, 0, false⟩ pre).rows := by
      rw [hfr1]
      exact List.mem_singleton.mpr rfl
    unfold rowsWithPid at hwmem
    obtain ⟨hm, hpw⟩ := List.mem_filter.mp hwmem
    exact ⟨w, hm, hpw⟩
  have hproc := processPreset_update now
    (runLoop true now ⟨store.rows, 0, 0, 0, false⟩ pre).rows p pid en nm pr2 oi
    hqp hen2 hnm hpr2 hoi2 hfind
  rw [runLoop_cons, runLoop_frame true now pid post hpost _]
  have hrows2 : (stepPreset true now
      (runLoop true now ⟨store.rows, 0, 0, 0, false⟩ pre) p).rows
      = (runLoop true now ⟨store.rows, 0, 0, 0, false⟩ pre).rows.map
          (fun r => if r.preset_id == pid then mkUpdatedRow now p r else r) := by
    rw [stepPreset_update true now _ p _ hf1 hproc]
  rw [hrows2, rowsWithPid_map_eq pid (mkUpdatedRow now p) (fun r => rfl), hfr1]
  rfl

/-- C2 witness: the worked example record against a store holding an old
row with `preset_id = "sunset"`. -/
theorem c2_update_matching_row_witness :
    rowsWithPid "sunset"
      (importPresets "2025-06-01T00:00:00Z" docSunset storeOld).store.rows
      = [mkUpdatedRow "2025-06-01T00:00:00Z" recSunset rowOld] ∧
    (mkUpdatedRow "2025-06-01T00:00:00Z" recSunset rowOld).id = rowOld.id ∧
    (mkUpdatedRow "2025-06-01T00:00:00Z" recSunset rowOld).created_at
      = rowOld.created_at := by
  obtain ⟨ha, hb, hc, -⟩ := c2_update_matching_row "2025-06-01T00:00:00Z"
    docSunset storeOld [] [] recSunset "sunset" rowOld rfl rfl rfl rfl
    (by decide) rfl rfl rfl rfl (by decide) (by decide) rfl
  exact ⟨ha, hb, hc⟩

/-- C3 counterexample: a record missing both `prompt` and `name` fails its
insert, and then the per-record handler's own `preset['name']` read raises:
the run aborts with exit 1 before the commit, `skipped` is never reported,
and the following record is never processed — the claim's "no per-record
failure halts the run" is false as stated. -/
theorem c3_counterexample :
    importPresets "2025-06-01T00:00:00Z"
      ⟨some [recNoNameNoPrompt, recDawn], some 2, some "2024-05-01T00:00:00Z"⟩
      ⟨true, []⟩ = ⟨1, ⟨true, []⟩, none⟩ := by
  decide

/-- C3 (amended): for every record that carries a `name`, a per-record
failure (missing required field or store failure) is caught by the handler,
bumps only `skipped`, leaves the rows untouched, and the loop continues with
the remaining records. -/
theorem c3_skip_continues (h : Bool) (now : String) (s : LoopState)
    (p : PresetRecord) (rest : List PresetRecord) (nm : String)
    (hf : s.fatal = false)
    (hfail : processPreset h now s.rows p = none)
    (hn : p.name = some nm) :
    runLoop h now s (p :: rest)
      = runLoop h now { s with skipped := s.skipped + 1 } rest := by
  rw [runLoop_cons, stepPreset_skip h now s p nm hf hfail hn]

/-- C3 witness: a record with a `name` but no `prompt` is skipped and the
loop moves on to the next record. -/
theorem c3_skip_continues_witness :
    runLoop true "2025-06-01T00:00:00Z" ⟨[], 0, 0, 0, false⟩
      [recNoPrompt, recDawn]
      = runLoop true "2025-06-01T00:00:00Z" ⟨[], 0, 0, 1, false⟩ [recDawn] :=
  c3_skip_continues true "2025-06-01T00:00:00Z" ⟨[], 0, 0, 0, false⟩
    recNoPrompt [recDawn] "Dusk" rfl (by decide) rfl

/-- C4 counterexample: the two runs generate distinct `updated_at`
timestamps, so the store after the second run differs from the store after
the first (the matched row's `updated_at` moved), even though the second
run does report `inserted = 0`, `updated = 1`. -/
theorem c4_counterexample :
    (importPresets "2025-06-02T00:00:00Z" docSunset
        (importPresets "2025-06-01T00:00:00Z" docSunset emptyStore).store).store
      ≠ (importPresets "2025-06-01T00:00:00Z" docSunset emptyStore).store ∧
    (importPresets "2025-06-02T00:00:00Z" docSunset
        (importPresets "2025-06-01T00:00:00Z" docSunset emptyStore).store).counters
      = some (0, 1, 0) := by
  decide

/-- C4 (amended): for a valid document of well-formed records with distinct
`preset_id`s against any store with the table, the second run produces
`inserted = 0`, `updated = N`, `skipped = 0`, and — provided both runs
generate the same `updated_at` timestamp — the store after the second run
is identical to the store after the first; with a later timestamp the runs
differ exactly in the matched rows' refreshed `updated_at`. -/
theorem c4_idempotent_same_timestamp (now : String) (doc : ExportDoc)
    (store : Store) (ps : List PresetRecord)
    (ht : store.hasTable = true)
    (h1 : doc.presets = some ps) (h2 : doc.presetsCount.isSome)
    (h3 : doc.exportedAt.isSome)
    (hwf : ∀ p ∈ ps, wellFormed p)
    (hnd : (ps.map pidOf).Nodup) :
    (importPresets now doc store).exitCode = 0 ∧
    importPresets now doc (importPresets now doc store).store
      = ⟨0, (importPresets now doc store).store, some (0, ps.length, 0)⟩ := by
  cases store with
  | mk htb rows =>
    simp only at ht
    subst ht
    have hnames : ∀ q ∈ ps, q.name ≠ none := by
      intro q hq he
      obtain ⟨-, -, h3q, -, -, -, -⟩ := hwf q hq
      rw [he] at h3q
      simp at h3q
    have hnf1 : (runLoop true now ⟨rows, 0, 0, 0, false⟩ ps).fatal = false :=
      runLoop_fatal true now ps hnames _ rfl
    have hok1 := importPresets_ok now doc ⟨true, rows⟩ ps h1 h2 h3 hnf1
    rw [hok1]
    refine ⟨rfl, ?_⟩
    have hsyn : ∀ p ∈ ps,
        synced now p (runLoop true now ⟨rows, 0, 0, 0, false⟩ ps).rows :=
      runLoop_synced_all now ps _ rfl hwf hnd
    have hnoop := runLoop_noop now ps
      ⟨(runLoop true now ⟨rows, 0, 0, 0, false⟩ ps).rows, 0, 0, 0, false⟩ rfl
      hwf (fun p hp => hsyn p hp)
    have hnf2 : (runLoop true now
        ⟨(runLoop true now ⟨rows, 0, 0, 0, false⟩ ps).rows, 0, 0, 0, false⟩
        ps).fatal = false := by
      rw [hnoop]
    have hok2 := importPresets_ok now doc
      ⟨true, (runLoop true now ⟨rows, 0, 0, 0, false⟩ ps).rows⟩ ps h1 h2 h3 hnf2
    rw [hok2, hnoop]
    simp

/-- C4 witness: re-running the worked example with the same timestamp. -/
theorem c4_idempotent_same_timestamp_witness :
    (importPresets "2025-06-01T00:00:00Z" docSunset emptyStore).exitCode = 0 ∧
    importPresets "2025-06-01T00:00:00Z" docSunset
        (importPresets "2025-06-01T00:00:00Z" docSunset emptyStore).store
      = ⟨0, (importPresets "2025-06-01T00:00:00Z" docSunset emptyStore).store,
         some (0, 1, 0)⟩ :=
  c4_idempotent_same_timestamp "2025-06-01T00:00:00Z" docSunset emptyStore
    [recSunset] rfl rfl rfl rfl (by decide) (by decide)

/-- C5: a document whose top level has no `presets` list (missing key or a
value that is not a sequence) makes the run exit 1 before the store is
opened: the persisted store is exactly the initial one and no counters are
reported. -/
theorem c5_missing_presets_fatal (now : String) (doc : ExportDoc)
    (store : Store) (h : doc.presets = none) :
    importPresets now doc store = ⟨1, store, none⟩ :=
  importPresets_noPresets now doc store h

/-- C5 witness. -/
theorem c5_missing_presets_fatal_witness :
    importPresets "2025-06-01T00:00:00Z" ⟨none, some 1, some "E"⟩
      ⟨true, [rowOld]⟩ = ⟨1, ⟨true, [rowOld]⟩, none⟩ :=
  c5_missing_presets_fatal "2025-06-01T00:00:00Z" ⟨none, some 1, some "E"⟩
    ⟨true, [rowOld]⟩ rfl

/-- C6: if no two rows of the starting store share a `preset_id`, the same
holds after the run: updates never touch the `preset_id` column and inserts
happen only when the lookup by `preset_id` found nothing. -/
theorem c6_pid_unique_preserved (now : String) (doc : ExportDoc)
    (store : Store) (hnd : (pidsOf store.rows).Nodup) :
    (pidsOf (importPresets now doc store).store.rows).Nodup := by
  cases h1 : doc.presets with
  | none =>
    rw [importPresets_noPresets now doc store h1]
    exact hnd
  | some ps =>
    cases h2 : doc.presetsCount with
    | none =>
      rw [importPresets_noCount now doc store ps h1 h2]
      exact hnd
    | some c =>
      cases h3 : doc.exportedAt with
      | none =>
        rw [importPresets_noExported now doc store ps c h1 h2 h3]
        exact hnd
      | some e =>
        cases hfat : (runLoop store.hasTable now
            ⟨store.rows, 0, 0, 0, false⟩ ps).fatal with
        | true =>
          rw [importPresets_fatalRun now doc store ps h1 (by rw [h2]; rfl)
            (by rw [h3]; rfl) hfat]
          exact hnd
        | false =>
          rw [importPresets_ok now doc store ps h1 (by rw [h2]; rfl)
            (by rw [h3]; rfl) hfat]
          exact runLoop_nodup store.hasTable now ps _ hnd

/-- C6 witness. -/
theorem c6_pid_unique_preserved_witness :
    (pidsOf (importPresets "2025-06-01T00:00:00Z" docSunset
      ⟨true, [rowOld]⟩).store.rows).Nodup :=
  c6_pid_unique_preserved "2025-06-01T00:00:00Z" docSunset ⟨true, [rowOld]⟩
    (by decide)

/-- C7: a row whose `preset_id` appears nowhere in the document is left
entirely unchanged by the run, for every document and every starting store:
the importer never deletes, and only ever SELECTs, UPDATEs or INSERTs rows
keyed by a document record's `preset_id`. -/
theorem c7_untouched_rows (now : String) (doc : ExportDoc) (store : Store)
    (pid : String)
    (habsent : ∀ ps, doc.presets = some ps →
      ∀ q ∈ ps, q.preset_id ≠ some pid) :
    rowsWithPid pid (importPresets now doc store).store.rows
      = rowsWithPid pid store.rows := by
  cases h1 : doc.presets with
  | none => rw [importPresets_noPresets now doc store h1]
  | some ps =>
    have habs := habsent ps h1
    cases h2 : doc.presetsCount with
    | none => rw [importPresets_noCount now doc store ps h1 h2]
    | some c =>
      cases h3 : doc.exportedAt with
      | none => rw [importPresets_noExported now doc store ps c h1 h2 h3]
      | some e =>
        cases hfat : (runLoop store.hasTable now
            ⟨store.rows, 0, 0, 0, false⟩ ps).fatal with
        | true =>
          rw [importPresets_fatalRun now doc store ps h1 (by rw [h2]; rfl)
            (by rw [h3]; rfl) hfat]
        | false =>
          rw [importPresets_ok now doc store ps h1 (by rw [h2]; rfl)
            (by rw [h3]; rfl) hfat]
          exact runLoop_frame store.hasTable now pid ps habs _

/-- C7 witness: the `keepme` row is untouched by the worked example. -/
theorem c7_untouched_rows_witness :
    rowsWithPid "keepme" (importPresets "2025-06-01T00:00:00Z" docSunset
        ⟨true, [rowKeep]⟩).store.rows
      = rowsWithPid "keepme" [rowKeep] :=
  c7_untouched_rows "2025-06-01T00:00:00Z" docSunset ⟨true, [rowKeep]⟩ "keepme"
    (by
      intro ps hps q hq
      injection hps with h
      subst h
      have hq2 := List.mem_singleton.mp hq
      subst hq2
      decide)

/-- C8: a document with a `presets` list but no `presetsCount` key or no
`exportedAt` key still halts with exit 1 before the store is opened: both
keys are read unconditionally right after validation, and the raised
`KeyError` reaches the outer handler. -/
theorem c8_missing_metadata_fatal (now : String) (doc : ExportDoc)
    (store : Store) (ps : List PresetRecord) (h1 : doc.presets = some ps)
    (h2 : doc.presetsCount = none ∨ doc.exportedAt = none) :
    importPresets now doc store = ⟨1, store, none⟩ := by
  rcases h2 with h2 | h2
  · exact importPresets_noCount now doc store ps h1 h2
  · cases hc : doc.presetsCount with
    | none => exact importPresets_noCount now doc store ps h1 hc
    | some c => exact importPresets_noExported now doc store ps c h1 hc h2

/-- C8 witness: a well-formed `presets` list with `presetsCount` missing. -/
theorem c8_missing_metadata_fatal_witness :
    importPresets "2025-06-01T00:00:00Z"
      ⟨some [recSunset], none, some "2024-05-01T00:00:00Z"⟩ ⟨true, []⟩
      = ⟨1, ⟨true, []⟩, none⟩ :=
  c8_missing_metadata_fatal "2025-06-01T00:00:00Z"
    ⟨some [recSunset], none, some "2024-05-01T00:00:00Z"⟩ ⟨true, []⟩
    [recSunset] rfl (Or.inl rfl)

/-- C9 counterexample: with no `preset_prompts` table, a document whose
record lacks a `name` does NOT exit 0 with `skipped == N`: the record's
failure reaches the handler, whose `preset['name']` read raises again, so
the run exits 1 and reports no counters. -/
theorem c9_counterexample :
    importPresets "2025-06-01T00:00:00Z"
      ⟨some [recNoNameNoPrompt], some 1, some "2024-05-01T00:00:00Z"⟩
      ⟨false, []⟩ = ⟨1, ⟨false, []⟩, none⟩ := by
  decide

/-- C9 (amended): with no `preset_prompts` table, a valid document whose
records all carry a `name` completes: every record's first store statement
raises, is caught and counted as skipped, and the process exits 0 with
counters `(0, 0, N)` and the store unmutated. -/
theorem c9_no_table_all_skipped (now : String) (doc : ExportDoc)
    (store : Store) (ps : List PresetRecord)
    (ht : store.hasTable = false)
    (h1 : doc.presets = some ps) (h2 : doc.presetsCount.isSome)
    (h3 : doc.exportedAt.isSome)
    (hn : ∀ q ∈ ps, q.name ≠ none) :
    importPresets now doc store = ⟨0, store, some (0, 0, ps.length)⟩ := by
  cases store with
  | mk htb rows =>
    simp only at ht
    subst ht
    have hrun := runLoop_noTable now ps ⟨rows, 0, 0, 0, false⟩ rfl hn
    have hnf : (runLoop false now ⟨rows, 0, 0, 0, false⟩ ps).fatal = false := by
      rw [hrun]
    have hok := importPresets_ok now doc ⟨false, rows⟩ ps h1 h2 h3 hnf
    rw [hok, hrun]
    simp

/-- C9 witness: one named record against a store with no table. -/
theorem c9_no_table_all_skipped_witness :
    importPresets "2025-06-01T00:00:00Z"
      ⟨some [recSunset], some 1, some "2024-05-01T00:00:00Z"⟩ ⟨false, []⟩
      = ⟨0, ⟨false, []⟩, some (0, 0, 1)⟩ :=
  c9_no_table_all_skipped "2025-06-01T00:00:00Z"
    ⟨some [recSunset], some 1, some "2024-05-01T00:00:00Z"⟩ ⟨false, []⟩
    [recSunset] rfl rfl rfl rfl (by decide)

/-- C10: for a valid document whose records all carry a `name`, the loop
completes and each record bumps exactly one counter, so the reported
counters satisfy `inserted + updated + skipped = N`. -/
theorem c10_counters_sum (now : String) (doc : ExportDoc) (store : Store)
    (ps : List PresetRecord)
    (h1 : doc.presets = some ps) (h2 : doc.presetsCount.isSome)
    (h3 : doc.exportedAt.isSome)
    (hn : ∀ q ∈ ps, q.name ≠ none) :
    ∃ i u k, (importPresets now doc store).counters = some (i, u, k) ∧
      i + u + k = ps.length := by
  have hnf : (runLoop store.hasTable now ⟨store.rows, 0, 0, 0, false⟩ ps).fatal
      = false := runLoop_fatal store.hasTable now ps hn _ rfl
  rw [importPresets_ok now doc store ps h1 h2 h3 hnf]
  refine ⟨_, _, _, rfl, ?_⟩
  have hsum := runLoop_counts store.hasTable now ps hn
    ⟨store.rows, 0, 0, 0, false⟩ rfl
  simpa using hsum

/-- C10 witness: one inserted and one skipped record sum to 2. -/
theorem c10_counters_sum_witness :
    ∃ i u k, (importPresets "2025-06-01T00:00:00Z"
        ⟨some [recSunset, recNoPrompt], some 2, some "2024-05-01T00:00:00Z"⟩
        emptyStore).counters = some (i, u, k) ∧ i + u + k = 2 :=
  c10_counters_sum "2025-06-01T00:00:00Z"
    ⟨some [recSunset, recNoPrompt], some 2, some "2024-05-01T00:00:00Z"⟩
    emptyStore [recSunset, recNoPrompt] rfl rfl rfl (by decide)
